import Mathlib

/-!
A verification development for the composable nested-container core of a
data-visualization library (heterogeneous composites, homogeneous containers,
composition/flattening engine, deep selection engine).

The library's core source is not available in this repository snapshot (only
its CI configuration and two tutorial notebooks are), so every definition
below is modelled from the design specification (spec.md) of that core, as
marked in the individual doc comments.
-/

namespace HoloCore

/-- Modelled from the spec: the two composition operator tags of a
Heterogeneous Composite (§3): `AGGREGATE` is the simultaneous/overlaid
combination (the `*` operator), `ARRANGE` the side-by-side/sequential
combination (the `+` operator). -/
inductive Tag where
  | AGGREGATE
  | ARRANGE
deriving DecidableEq, Repr

/-- Modelled from the spec: the error taxonomy of §7.  Each constructor is one
of the local, synchronous, non-retryable failure classes of the core. -/
inductive Err where
  | domainError
  | keyArityError
  | signatureError
  | noSuchKey
  | noSuchBranch
  | selectionEmptyError
deriving DecidableEq, Repr

mutual
/-- Modelled from the spec: a node of the container tree (§3).  A `leaf` is a
Leaf Element (opaque payload plus `(group, label)` identity tag; its internal
Dimensions play no role in the claims and are elided).  An `hmap` is a
Homogeneous Container: ordered key dimensions (a Dimension's identity is its
name, §3, so a key dimension is represented by its name) plus an ordered
mapping from key tuples to nodes.  A `comp` is a Heterogeneous Composite: an
operator tag plus an ordered sequence of identity-keyed branches. -/
inductive Node where
  | leaf (group label : String) (payload : Nat)
  | hmap (group label : String) (kdims : List String) (entries : EntryList)
  | comp (group label : String) (tag : Tag) (branches : BranchList)

/-- Modelled from the spec: the ordered mapping of a Homogeneous Container
(§3), from key tuples (one component per key dimension) to child nodes. -/
inductive EntryList where
  | enil
  | econs (key : List Int) (value : Node) (rest : EntryList)

/-- Modelled from the spec: the ordered branch sequence of a Heterogeneous
Composite (§3), keyed by `(group, label)` identity tags. -/
inductive BranchList where
  | bnil
  | bcons (bkey : String × String) (value : Node) (rest : BranchList)
end

open Node EntryList BranchList

/-- Modelled from the spec: every node carries a `(group, label)` identity tag
(§3). -/
def Node.identity : Node → String × String
  | .leaf g l _ => (g, l)
  | .hmap g l _ _ => (g, l)
  | .comp g l _ _ => (g, l)

/-- The branch values of a branch sequence, in order. -/
def BranchList.nodes : BranchList → List Node
  | .bnil => []
  | .bcons _ v r => v :: r.nodes

/-- The branch identity keys of a branch sequence, in order. -/
def BranchList.bkeys : BranchList → List (String × String)
  | .bnil => []
  | .bcons k _ r => k :: r.bkeys

/-- Build a branch sequence from a list of identity-keyed nodes. -/
def BranchList.ofList : List ((String × String) × Node) → BranchList
  | [] => .bnil
  | (k, v) :: r => .bcons k v (BranchList.ofList r)

/-- Branch count of a branch sequence. -/
def BranchList.blength : BranchList → Nat
  | .bnil => 0
  | .bcons _ _ r => r.blength + 1

/-- First branch value matching an identity key, if any. -/
def BranchList.findB (k : String × String) : BranchList → Option Node
  | .bnil => none
  | .bcons k' v r => if k' = k then some v else r.findB k

/-- The branch values of a composite node (empty for the other node kinds). -/
def Node.branchNodes : Node → List Node
  | .comp _ _ _ bs => bs.nodes
  | _ => []

/-- The digit table of the standard roman-numeral encoding, used for the
disambiguating branch indices `.I`, `.II`, … of §3. -/
def romanDigits : List (Nat × String) :=
  [(1000, "M"), (900, "CM"), (500, "D"), (400, "CD"), (100, "C"), (90, "XC"),
   (50, "L"), (40, "XL"), (10, "X"), (9, "IX"), (5, "V"), (4, "IV"), (1, "I")]

/-- Greedy digit-wise roman-numeral encoding over a digit table. -/
def romanFrom : List (Nat × String) → Nat → String
  | [], _ => ""
  | (v, s) :: rest, n => String.join (List.replicate (n / v) s) ++ romanFrom rest (n % v)

/-- Roman-numeral encoding of a positive natural number. -/
def intToRoman (n : Nat) : String := romanFrom romanDigits n

/-- Modelled from the spec: the disambiguating index suffix of §3.  For an
empty label the index itself becomes the label (so an unlabeled `Curve`
branch is addressed as `Curve.I`); a nonempty label gets the index appended
after a dot. -/
def disLabel (l : String) (k : Nat) : String :=
  if l = "" then intToRoman k else l ++ "." ++ intToRoman k

/-- Number of nodes in a list whose identity tag is `idt`. -/
def idCount (idt : String × String) (ns : List Node) : Nat :=
  (ns.filter (fun n => n.identity = idt)).length

/-- Modelled from the spec: identity de-duplication (§3, §4.4 step 3).  Walks
the branch-node list keeping the already-seen nodes; an identity that occurs
more than once in the whole list gets its occurrences suffixed with
disambiguating indices assigned in insertion order (first-seen gets index 1,
displayed `I`). -/
def disambiguateAux (total : List Node) : List Node → List Node → List ((String × String) × Node)
  | _, [] => []
  | seen, n :: rr =>
      let key :=
        if 2 ≤ idCount n.identity total then
          (n.identity.1, disLabel n.identity.2 (idCount n.identity seen + 1))
        else n.identity
      (key, n) :: disambiguateAux total (seen ++ [n]) rr

/-- Modelled from the spec: assign identity keys to a branch-node list,
resolving collisions by the suffixing rule of §3. -/
def disambiguate (ns : List Node) : List ((String × String) × Node) :=
  disambiguateAux ns [] ns

/-- Modelled from the spec: §4.4 steps 1–2.  A node contributes its branch
list to a composition under tag `t` when it is itself a Composite with the
same tag (splicing); any other node contributes itself as a single branch. -/
def asBranchNodes (t : Tag) : Node → List Node
  | .comp g l t' bs => if t' = t then bs.nodes else [.comp g l t' bs]
  | n => [n]

/-- Modelled from the spec: the default group of a composite is a structural
type name (§3); the overlaid composite is an `Overlay`, the juxtaposed one a
`Layout`. -/
def defaultGroup : Tag → String
  | .AGGREGATE => "Overlay"
  | .ARRANGE => "Layout"

/-- Modelled from the spec: `compose(tag, left, right)` (§4.4), the
Composition & Flattening Engine.  Splices each operand that is a same-tag
Composite, keeps any other operand as a single branch, and de-duplicates the
branch identities by the suffixing rule. -/
def compose (t : Tag) (a b : Node) : Node :=
  .comp (defaultGroup t) "" t
    (BranchList.ofList (disambiguate (asBranchNodes t a ++ asBranchNodes t b)))

/-- Modelled from the spec: `attribute_access(composite, group, label)` (§4.4)
— exact branch lookup by identity tag, failing with a `NoSuchBranch` error
when absent or when the node is not a composite. -/
def attribute_access (n : Node) (g l : String) : Except Err Node :=
  match n with
  | .comp _ _ _ bs =>
      match bs.findB (g, l) with
      | some v => .ok v
      | none => .error .noSuchBranch
  | _ => .error .noSuchBranch

/-- Whether a node is a Composite carrying the given tag (the nodes that
splice under a same-tag composition). -/
def Node.isCompTag (t : Tag) : Node → Bool
  | .comp _ _ t' _ => t' = t
  | _ => false

mutual
/-- Modelled from the spec: the nesting invariant of §4.4 step 3 — branches
never nest a same-tag Composite inside another same-tag Composite (so a
same-operator chain has representation depth one). -/
def Node.wfComp : Node → Bool
  | .leaf _ _ _ => true
  | .hmap _ _ _ es => es.wfCompE
  | .comp _ _ t bs => bs.wfCompB t

/-- The nesting invariant, threaded through container entries. -/
def EntryList.wfCompE : EntryList → Bool
  | .enil => true
  | .econs _ v r => v.wfComp && r.wfCompE

/-- The nesting invariant, threaded through the branches of a composite
tagged `t`: no branch is itself a composite tagged `t`. -/
def BranchList.wfCompB (t : Tag) : BranchList → Bool
  | .bnil => true
  | .bcons _ v r => !(v.isCompTag t) && v.wfComp && r.wfCompB t
end

/-- Entry count of a container's mapping. -/
def EntryList.elength : EntryList → Nat
  | .enil => 0
  | .econs _ _ r => r.elength + 1

/-- The key tuples of a container's mapping, in insertion order. -/
def EntryList.ekeys : EntryList → List (List Int)
  | .enil => []
  | .econs k _ r => k :: r.ekeys

/-- Modelled from the spec: exact-match retrieval from a container's ordered
mapping (§4.3 `lookup`), as an option. -/
def EntryList.lookupE (k : List Int) : EntryList → Option Node
  | .enil => none
  | .econs k' v r => if k' = k then some v else r.lookupE k

/-- Modelled from the spec: insert-or-replace at a key (§3 lifecycle):
replacing a key replaces the whole subtree at that key; a new key is appended,
preserving insertion order of the others. -/
def EntryList.insertReplace (k : List Int) (x : Node) : EntryList → EntryList
  | .enil => .econs k x .enil
  | .econs k' v r => if k' = k then .econs k x r else .econs k' v (r.insertReplace k x)

/-- Modelled from the spec: the structural signature of a node, used for the
homogeneity invariant of a container (§3 (b)): leaves are classed by their
`(group, label)` identity, containers by their (nested) key-dimension
signature, composites by their operator tag. -/
inductive Sig where
  | leafSig (group label : String)
  | mapEmptySig (kdims : List String)
  | mapOfSig (kdims : List String) (inner : Sig)
  | compSig (t : Tag)
deriving DecidableEq, Repr

mutual
/-- Modelled from the spec: compute a node's structural signature (§3 (b)); a
container's signature nests the signature of its entries (taken from the
first entry, all entries being homogeneous by invariant). -/
def Node.sig : Node → Sig
  | .leaf g l _ => .leafSig g l
  | .hmap _ _ kd es => es.mapSigOf kd
  | .comp _ _ t _ => .compSig t

/-- Signature of a container with key dimensions `kd` and these entries. -/
def EntryList.mapSigOf (kd : List String) : EntryList → Sig
  | .enil => .mapEmptySig kd
  | .econs _ v _ => .mapOfSig kd v.sig
end

/-- Modelled from the spec: whether inserting `x` into a container with these
entries respects the homogeneity invariant (§4.3 `assign`): an empty container
accepts any node; otherwise `x`'s structural shape must match the existing
entries'. -/
def sigCompatible (es : EntryList) (x : Node) : Bool :=
  match es with
  | .enil => true
  | .econs _ v _ => x.sig = v.sig

/-- Modelled from the spec: `assign(key_tuple, node)` on a Homogeneous
Container (§4.3): fails with `KeyArityError` on a key-arity mismatch, with
`SignatureError` on a structural conflict with the existing entries, and
otherwise inserts-or-replaces. -/
def assignE (kd : List String) (es : EntryList) (k : List Int) (x : Node) :
    Except Err EntryList :=
  if k.length ≠ kd.length then .error .keyArityError
  else if sigCompatible es x then .ok (es.insertReplace k x)
  else .error .signatureError

/-- Modelled from the spec: `assign` is the one documented in-place mutation
(§4.5 state note, §9): the pair returned is the call's outcome together with
the container's entries after the call — unchanged when the call fails. -/
def assignInPlace (kd : List String) (es : EntryList) (k : List Int) (x : Node) :
    Except Err Unit × EntryList :=
  match assignE kd es k x with
  | .ok es' => (.ok (), es')
  | .error e => (.error e, es)

/-- Modelled from the spec: `lookup(key_tuple)` on a Homogeneous Container
(§4.3): fails with `KeyArityError` on arity mismatch and with a
`NoSuchKey` error when the key is absent. -/
def lookupC (kd : List String) (es : EntryList) (k : List Int) : Except Err Node :=
  if k.length ≠ kd.length then .error .keyArityError
  else
    match es.lookupE k with
    | some v => .ok v
    | none => .error .noSuchKey

/-- Modelled from the spec: entry-wise union of two containers' mappings with
the overwrite-by-rightmost key-collision policy (§4.3 composition via `+`):
each entry of the right operand is inserted-or-replaced, in order, into the
left operand's mapping. -/
def mergeRight (es : EntryList) : EntryList → EntryList
  | .enil => es
  | .econs k v r => mergeRight (es.insertReplace k v) r

/-- Modelled from the spec and the tutorial usage of `*` on two containers of
identical key dimensions: the key-wise AGGREGATE combination — each key of the
left operand maps to the AGGREGATE composition of the two operands' entries at
that key (a key absent on the right keeps the left entry). -/
def zipAgg (es' : EntryList) : EntryList → EntryList
  | .enil => .enil
  | .econs k v r =>
      match es'.lookupE k with
      | some w => .econs k (compose .AGGREGATE v w) (zipAgg es' r)
      | none => .econs k v (zipAgg es' r)

/-- Modelled from the spec: operator-level dispatch of `+` and `*` (§4.3,
§4.4): when both operands are Homogeneous Containers of identical key
dimensions, `+` is the entry-wise union with rightmost-wins collisions and `*`
the key-wise AGGREGATE combination; every other operand pair goes to the
Composition & Flattening Engine. -/
def applyOp (t : Tag) (a b : Node) : Node :=
  match a, b with
  | .hmap g l kd es, .hmap _ _ kd' es' =>
      if kd = kd' then
        match t with
        | .ARRANGE => .hmap g l kd (mergeRight es es')
        | .AGGREGATE => .hmap g l kd (zipAgg es' es)
      else compose t a b
  | a', b' => compose t a' b'

/-- Modelled from the spec: a selection constraint value (§4.3 `select`):
equality for a scalar, inclusion for a range, a call for a predicate. -/
inductive Constraint where
  | scalar (v : Int)
  | interval (lo hi : Int)
  | predC (f : Int → Bool)

/-- A selection query: named-dimension constraints. -/
abbrev Query := List (String × Constraint)

/-- Modelled from the spec: whether one key component matches a constraint
(§4.3): equality for a scalar, inclusion test for a range, predicate call for
a callable. -/
def cmatch : Constraint → Int → Bool
  | .scalar v, x => x = v
  | .interval lo hi, x => decide (lo ≤ x) && decide (x ≤ hi)
  | .predC f, x => f x

/-- Whether a constraint is a scalar (pinning) constraint. -/
def Constraint.isScalar : Constraint → Bool
  | .scalar _ => true
  | _ => false

/-- Modelled from the spec: the part of a query naming this container's key
dimensions — consumed at this container (§4.5). -/
def consumedAt (kd : List String) (cs : Query) : Query :=
  cs.filter (fun dc => kd.contains dc.1)

/-- Modelled from the spec: the part of a query not naming this container's
key dimensions — passed down, unconsumed, into whichever nodes remain
(§4.5). -/
def passedDown (kd : List String) (cs : Query) : Query :=
  cs.filter (fun dc => !(kd.contains dc.1))

/-- Modelled from the spec: whether a key tuple satisfies a query against
these key dimensions (§4.3 `select`): each constraint naming a key dimension
must match the corresponding key component; constraints naming other
dimensions leave the key unconstrained. -/
def keyMatches (kd : List String) (cs : Query) (k : List Int) : Bool :=
  cs.all (fun dc =>
    match kd.findIdx? (fun d => d = dc.1) with
    | some i =>
        match k[i]? with
        | some x => cmatch dc.2 x
        | none => true
    | none => true)

/-- Whether the query pins dimension `d` with a scalar constraint. -/
def pinnedBy (cs : Query) (d : String) : Bool :=
  cs.any (fun dc => dc.1 = d && dc.2.isScalar)

/-- Modelled from the spec: whether a query fully pinned every key dimension
with a scalar (§4.3 — the trigger of the collapse-on-full-specification
rule). -/
def fullyPinned (kd : List String) (cs : Query) : Bool :=
  kd.all (pinnedBy cs)

/-- Modelled from the spec: the still-unconstrained key dimensions after a
query (§4.3): the scalar-pinned dimensions are dropped (after the equality
filter every remaining entry shares the pinned values). -/
def reducedDims (kd : List String) (cs : Query) : List String :=
  kd.filter (fun d => !(pinnedBy cs d))

/-- Drop the components of a key tuple at scalar-pinned dimensions, keeping
the components of the still-unconstrained ones. -/
def reduceKey (kd : List String) (cs : Query) (k : List Int) : List Int :=
  ((kd.zip k).filter (fun dx => !(pinnedBy cs dx.1))).map Prod.snd

/-- Filter a container's mapping by the consumed part of a query. -/
def filterE (kd : List String) (cs : Query) : EntryList → EntryList
  | .enil => .enil
  | .econs k v r =>
      if keyMatches kd cs k then .econs k v (filterE kd cs r) else filterE kd cs r

/-- Rewrite the keys of a filtered mapping to the reduced dimensions. -/
def remapKeys (kd : List String) (cs : Query) : EntryList → EntryList
  | .enil => .enil
  | .econs k v r => .econs (reduceKey kd cs k) v (remapKeys kd cs r)

/-- Modelled from the spec: `select` on a Homogeneous Container (§4.3).
Filters the entries by the constraints naming this container's key
dimensions; if the result has exactly one entry and the query fully pinned
every key dimension, returns that entry's node unwrapped; otherwise returns a
new container of the filtered entries over the reduced key dimensions. -/
def selectH (cs : Query) (g l : String) (kd : List String) (es : EntryList) : Node :=
  let ms := consumedAt kd cs
  match filterE kd ms es, fullyPinned kd ms with
  | .econs _ v .enil, true => v
  | kept, _ => .hmap g l (reducedDims kd ms) (remapKeys kd ms kept)

mutual
/-- Modelled from the spec: the Deep Selection Engine (§4.5), as an option
(`none` models the case where the constraints eliminate the whole subtree).
A leaf is a terminal, returned unchanged.  At a Homogeneous Container the
constraints naming its key dimensions are consumed (filtering the entries by
§4.3 `select`, collapsing on full specification) and the rest are passed down
into the remaining entries, entries whose subtree empties being dropped.  At
a Heterogeneous Composite nothing is consumed; every branch is visited with
the full constraint set and branches that vanish are dropped; the result is
empty only when every branch vanished. -/
def deepSelect (cs : Query) : Node → Option Node
  | .leaf g l p => some (.leaf g l p)
  | .hmap g l kd es =>
      let ms := consumedAt kd cs
      match deepE kd ms (passedDown kd cs) es, fullyPinned kd ms with
      | .econs _ v .enil, true => some v
      | .enil, _ => none
      | kept, _ => some (.hmap g l (reducedDims kd ms) (remapKeys kd ms kept))
  | .comp g l t bs =>
      match deepB cs bs with
      | .bnil => none
      | kept => some (.comp g l t kept)

/-- Deep selection over a container's mapping: keep the entries whose key
matches the consumed constraints and whose subtree survives the passed-down
constraints (dropping the entries that empty). -/
def deepE (kd : List String) (ms ps : Query) : EntryList → EntryList
  | .enil => .enil
  | .econs k v r =>
      if keyMatches kd ms k then
        match deepSelect ps v with
        | some v' => .econs k v' (deepE kd ms ps r)
        | none => deepE kd ms ps r
      else deepE kd ms ps r

/-- Deep selection over a composite's branches: recurse into every branch
with the full constraint set, dropping the branches that vanish. -/
def deepB (cs : Query) : BranchList → BranchList
  | .bnil => .bnil
  | .bcons bk v r =>
      match deepSelect cs v with
      | some v' => .bcons bk v' (deepB cs r)
      | none => deepB cs r
end

/-- Modelled from the spec: `deep_select(root, **named_constraints)` (§4.5,
§7): surfaces `SelectionEmptyError` exactly when the constraint set
eliminates every branch/entry of the queried subtree. -/
def deep_select (cs : Query) (n : Node) : Except Err Node :=
  match deepSelect cs n with
  | some r => .ok r
  | none => .error .selectionEmptyError

/-- The operator tag of a composite node, if the node is one. -/
def Node.tagOf : Node → Option Tag
  | .comp _ _ t _ => some t
  | _ => none

/-- The branch identity keys of a composite node (empty otherwise). -/
def Node.branchKeys : Node → List (String × String)
  | .comp _ _ _ bs => bs.bkeys
  | _ => []

/-- A demonstration leaf, as in the tutorial trees (an unlabeled curve). -/
def demoLeaf (i : Nat) : Node := .leaf "Curve" "" i

/-- A demonstration one-key-dimension container over `Frequency`, as in the
tutorial's `HoloMap`s. -/
def demoHoloMap (i : Nat) : Node :=
  .hmap "HoloMap" "" ["Frequency"]
    (.econs [1] (demoLeaf (10 * i + 1)) (.econs [2] (demoLeaf (10 * i + 2)) .enil))

/-- A demonstration two-key-dimension container over `Amplitude` and `Power`
holding `Frequency` containers, as in the tutorial's `GridSpace` of
`HoloMap`s. -/
def demoGrid : Node :=
  .hmap "GridSpace" "Sines" ["Amplitude", "Power"]
    (.econs [5, 1] (demoHoloMap 1)
      (.econs [5, 2] (demoHoloMap 2)
        (.econs [10, 1] (demoHoloMap 3) .enil)))

/-- A demonstration container whose key set avoids the value 5. -/
def demoBranchA : Node :=
  .hmap "HoloMap" "" ["D"] (.econs [1] (demoLeaf 1) (.econs [2] (demoLeaf 2) .enil))

/-- A demonstration container holding exactly key 5. -/
def demoBranchB : Node :=
  .hmap "HoloMap" "" ["D"] (.econs [5] (demoLeaf 3) .enil)

/-- A demonstration container holding keys 5 and 6. -/
def demoBranchC : Node :=
  .hmap "HoloMap" "" ["D"] (.econs [5] (demoLeaf 4) (.econs [6] (demoLeaf 5) .enil))

/-- A demonstration three-branch AGGREGATE composite over the containers
above. -/
def demoOverlay : Node :=
  .comp "Overlay" "" .AGGREGATE
    (.bcons ("HoloMap", "I") demoBranchA
      (.bcons ("HoloMap", "II") demoBranchB
        (.bcons ("HoloMap", "III") demoBranchC .bnil)))

/-! ### Helper lemmas -/

theorem disambiguateAux_map_snd (total : List Node) (l : List Node) :
    ∀ seen : List Node, (disambiguateAux total seen l).map Prod.snd = l := by
  induction l with
  | nil => intro seen; rfl
  | cons n r ih => intro seen; simp [disambiguateAux, ih]

theorem disambiguate_map_snd (ns : List Node) :
    (disambiguate ns).map Prod.snd = ns :=
  disambiguateAux_map_snd ns ns []

theorem nodes_ofList (xs : List ((String × String) × Node)) :
    (BranchList.ofList xs).nodes = xs.map Prod.snd := by
  induction xs with
  | nil => rfl
  | cons p r ih => cases p; simp [BranchList.ofList, BranchList.nodes, ih]

theorem branchNodes_compose (t : Tag) (a b : Node) :
    (compose t a b).branchNodes
      = asBranchNodes t a ++ asBranchNodes t b := by
  simp [compose, Node.branchNodes, nodes_ofList, disambiguate_map_snd]

theorem asBranchNodes_compose (t : Tag) (a b : Node) :
    asBranchNodes t (compose t a b) = asBranchNodes t a ++ asBranchNodes t b := by
  rw [compose, asBranchNodes]
  simp [nodes_ofList, disambiguate_map_snd]

theorem asBranchNodes_atom (t : Tag) (a : Node) (h : a.isCompTag t = false) :
    asBranchNodes t a = [a] := by
  cases a with
  | leaf g l p => rfl
  | hmap g l kd es => rfl
  | comp g l t' bs =>
      have ht : ¬ (t' = t) := by
        intro he
        rw [Node.isCompTag, decide_eq_false_iff_not] at h
        exact h he
      rw [asBranchNodes, if_neg ht]

theorem wfCompB_spec (t : Tag) (bs : BranchList) (h : bs.wfCompB t = true) :
    ∀ n ∈ bs.nodes, n.isCompTag t = false ∧ n.wfComp = true :=
  match bs with
  | .bnil => by intro n hn; cases hn
  | .bcons k v r => by
      rw [BranchList.wfCompB, Bool.and_eq_true, Bool.and_eq_true] at h
      intro n hn
      rw [BranchList.nodes] at hn
      rcases List.mem_cons.mp hn with hn | hn
      · subst hn; exact ⟨by simpa using h.1.1, h.1.2⟩
      · exact wfCompB_spec t r h.2 n hn

theorem asBranchNodes_wf (t : Tag) (a : Node) (hw : a.wfComp = true) :
    ∀ n ∈ asBranchNodes t a, n.isCompTag t = false ∧ n.wfComp = true := by
  cases a with
  | leaf g l p =>
      intro n hn
      have he : n = .leaf g l p := List.mem_singleton.mp hn
      subst he
      exact ⟨rfl, rfl⟩
  | hmap g l kd es =>
      intro n hn
      have he : n = .hmap g l kd es := List.mem_singleton.mp hn
      subst he
      exact ⟨rfl, hw⟩
  | comp g l t' bs =>
      by_cases ht : t' = t
      · subst ht
        rw [asBranchNodes, if_pos rfl]
        exact wfCompB_spec t' bs (by simpa [Node.wfComp] using hw)
      · rw [asBranchNodes, if_neg ht]
        intro n hn
        have he : n = .comp g l t' bs := List.mem_singleton.mp hn
        subst he
        exact ⟨by simp [Node.isCompTag, ht], hw⟩

theorem wfCompB_ofList (t : Tag) (xs : List ((String × String) × Node))
    (h : ∀ p ∈ xs, p.2.isCompTag t = false ∧ p.2.wfComp = true) :
    (BranchList.ofList xs).wfCompB t = true := by
  induction xs with
  | nil => rfl
  | cons p r ih =>
      cases p with
      | mk k v =>
          rw [BranchList.ofList, BranchList.wfCompB, Bool.and_eq_true, Bool.and_eq_true]
          have hv := h (k, v) (by simp)
          refine ⟨⟨by simp [hv.1], hv.2⟩, ih (fun q hq => h q (by simp [hq]))⟩

theorem compose_wf (t : Tag) (a b : Node) (ha : a.wfComp = true) (hb : b.wfComp = true) :
    (compose t a b).wfComp = true := by
  rw [compose, Node.wfComp]
  apply wfCompB_ofList
  intro p hp
  have hmem : p.2 ∈ asBranchNodes t a ++ asBranchNodes t b := by
    have h2 : p.2 ∈ (disambiguate (asBranchNodes t a ++ asBranchNodes t b)).map Prod.snd :=
      List.mem_map_of_mem Prod.snd hp
    rwa [disambiguate_map_snd] at h2
  rcases List.mem_append.mp hmem with hmem | hmem
  · exact asBranchNodes_wf t a ha p.2 hmem
  · exact asBranchNodes_wf t b hb p.2 hmem

/-! ### Claims about the Composition & Flattening Engine -/

/-- C1 (amended).  For every operator tag `t` and nodes `a, b, c, d`:
`compose(t, compose(t,a,b), compose(t,c,d))` equals
`compose(t, a, compose(t, b, compose(t, c, d)))` unconditionally; when no
operand is itself a Composite tagged `t`, each is a Composite whose branch
sequence is exactly `[a, b, c, d]` (a same-tag composite operand is instead
spliced); and on nodes satisfying the no-same-tag-nesting invariant the
result satisfies it too and none of its branches is a same-tag composite, so
a same-operator chain has representation depth exactly one. -/
theorem claim_C1_assoc_flatten (t : Tag) (a b c d : Node) :
    compose t (compose t a b) (compose t c d)
        = compose t a (compose t b (compose t c d))
    ∧ (a.isCompTag t = false → b.isCompTag t = false → c.isCompTag t = false →
        d.isCompTag t = false →
        (compose t (compose t a b) (compose t c d)).branchNodes = [a, b, c, d])
    ∧ (a.wfComp = true → b.wfComp = true → c.wfComp = true → d.wfComp = true →
        (compose t (compose t a b) (compose t c d)).wfComp = true
        ∧ ∀ n ∈ (compose t (compose t a b) (compose t c d)).branchNodes,
            n.isCompTag t = false) := by
  have e : ∀ x y : Node,
      compose t x y
        = .comp (defaultGroup t) "" t
            (BranchList.ofList (disambiguate (asBranchNodes t x ++ asBranchNodes t y))) :=
    fun x y => rfl
  refine ⟨?_, ?_, ?_⟩
  · rw [e (compose t a b) (compose t c d), e a (compose t b (compose t c d)),
      asBranchNodes_compose, asBranchNodes_compose, asBranchNodes_compose,
      List.append_assoc, asBranchNodes_compose]
  · intro ha hb hc hd
    rw [branchNodes_compose, asBranchNodes_compose, asBranchNodes_compose,
      asBranchNodes_atom t a ha, asBranchNodes_atom t b hb,
      asBranchNodes_atom t c hc, asBranchNodes_atom t d hd]
    rfl
  · intro hwa hwb hwc hwd
    have hab := compose_wf t a b hwa hwb
    have hcd := compose_wf t c d hwc hwd
    refine ⟨compose_wf t _ _ hab hcd, ?_⟩
    intro n hn
    rw [branchNodes_compose] at hn
    rcases List.mem_append.mp hn with hn | hn
    · exact (asBranchNodes_wf t _ hab n hn).1
    · exact (asBranchNodes_wf t _ hcd n hn).1

/-- C1 witness: the amended statement at four concrete leaves, all
hypotheses discharged. -/
theorem claim_C1_witness :
    (compose .ARRANGE
        (compose .ARRANGE (.leaf "A" "" 1) (.leaf "B" "" 2))
        (compose .ARRANGE (.leaf "C" "" 3) (.leaf "D" "" 4))).branchNodes
      = [.leaf "A" "" 1, .leaf "B" "" 2, .leaf "C" "" 3, .leaf "D" "" 4] :=
  (claim_C1_assoc_flatten .ARRANGE (.leaf "A" "" 1) (.leaf "B" "" 2)
      (.leaf "C" "" 3) (.leaf "D" "" 4)).2.1 rfl rfl rfl rfl

/-- C1 counterexample: as frozen, the claim quantifies over every four nodes,
but when `a` is itself a same-tag composite its branches are spliced, so the
branch sequence of the chained composition is not `[a, b, c, d]`. -/
theorem claim_C1_counterexample :
    ¬ ((compose .ARRANGE
          (compose .ARRANGE
            (compose .ARRANGE (.leaf "A" "" 1) (.leaf "B" "" 2))
            (.leaf "E" "" 5))
          (compose .ARRANGE (.leaf "C" "" 3) (.leaf "D" "" 4))).branchNodes
        = [compose .ARRANGE (.leaf "A" "" 1) (.leaf "B" "" 2),
           .leaf "E" "" 5, .leaf "C" "" 3, .leaf "D" "" 4]) := by
  intro h
  exact absurd (congrArg List.length h) (by decide)

/-- C2 (amended).  Whenever neither operand of `compose` is a Composite
carrying the outer call's tag (for example an AGGREGATE composite and an
ARRANGE composite or a non-composite node composed under the tag that neither
carries), no flattening occurs: the result is a new Composite under the outer
call's tag with exactly two branches, the two original nodes, each branch
retaining its internal structure unchanged. -/
theorem claim_C2_mixed_tags_two_branches (t : Tag) (a b : Node)
    (ha : a.isCompTag t = false) (hb : b.isCompTag t = false) :
    (compose t a b).branchNodes = [a, b]
    ∧ (compose t a b).branchNodes.length = 2
    ∧ (compose t a b).tagOf = some t := by
  have hbr : (compose t a b).branchNodes = [a, b] := by
    rw [branchNodes_compose, asBranchNodes_atom t a ha, asBranchNodes_atom t b hb]
    rfl
  exact ⟨hbr, by simp [hbr], rfl⟩

/-- C2 witness: an ARRANGE composite and a leaf composed under AGGREGATE keep
their structure as the two branches. -/
theorem claim_C2_witness :
    (compose .AGGREGATE
        (compose .ARRANGE (.leaf "C" "" 3) (.leaf "D" "" 4))
        (.leaf "A" "" 1)).branchNodes
      = [compose .ARRANGE (.leaf "C" "" 3) (.leaf "D" "" 4), .leaf "A" "" 1] :=
  (claim_C2_mixed_tags_two_branches .AGGREGATE
      (compose .ARRANGE (.leaf "C" "" 3) (.leaf "D" "" 4))
      (.leaf "A" "" 1) rfl rfl).1

/-- C2 counterexample: composing an AGGREGATE composite (two branches) with
an ARRANGE composite under the AGGREGATE tag splices the left operand — the
result has three branches, not two, refuting the claim as frozen. -/
theorem claim_C2_counterexample :
    ¬ ((compose .AGGREGATE
          (compose .AGGREGATE (.leaf "A" "" 1) (.leaf "B" "" 2))
          (compose .ARRANGE (.leaf "C" "" 3) (.leaf "D" "" 4))).branchNodes.length
        = 2) := by
  decide

theorem intToRoman_one : intToRoman 1 = "I" := rfl

theorem intToRoman_two : intToRoman 2 = "II" := rfl

theorem disLabel_one_ne_two (l : String) : disLabel l 1 ≠ disLabel l 2 := by
  intro h
  rw [disLabel, disLabel] at h
  by_cases hl : l = ""
  · rw [if_pos hl, if_pos hl, intToRoman_one, intToRoman_two] at h
    exact absurd h (by decide)
  · rw [if_neg hl, if_neg hl, intToRoman_one, intToRoman_two] at h
    have hlen := congrArg String.length h
    have hdot : (("." : String)).length = 1 := rfl
    have hone : (("I" : String)).length = 1 := rfl
    have htwo : (("II" : String)).length = 2 := rfl
    rw [String.length_append, String.length_append, String.length_append,
      String.length_append, hdot, hone, htwo] at hlen
    omega

theorem disambiguate_pair (a b : Node) (g l : String)
    (hida : a.identity = (g, l)) (hidb : b.identity = (g, l)) :
    disambiguate [a, b] = [((g, disLabel l 1), a), ((g, disLabel l 2), b)] := by
  have hc2 : idCount (g, l) [a, b] = 2 := by
    simp [idCount, List.filter, hida, hidb]
  have hc0 : idCount (g, l) ([] : List Node) = 0 := rfl
  have hc1 : idCount (g, l) [a] = 1 := by
    simp [idCount, List.filter, hida]
  rw [disambiguate, disambiguateAux, disambiguateAux, disambiguateAux]
  simp only [List.nil_append, hida, hidb, hc2, hc0, hc1]
  norm_num

/-- C6.  When two nodes with identical identity tags `(g, l)` (neither a
same-tag composite, so neither splices) are composed, the collision is
resolved by suffixing disambiguating indices assigned in insertion order: the
resulting composite's branch keys are `(g, l.I)` and `(g, l.II)` (for an
empty label, `(g, I)` and `(g, II)`), pairwise distinct, with the first-seen
branch receiving index `I`; the two branches are addressable by those keys
via attribute access. -/
theorem claim_C6_identity_disambiguation (t : Tag) (a b : Node) (g l : String)
    (hida : a.identity = (g, l)) (hidb : b.identity = (g, l))
    (ha : a.isCompTag t = false) (hb : b.isCompTag t = false) :
    compose t a b
        = .comp (defaultGroup t) "" t
            (.bcons (g, disLabel l 1) a (.bcons (g, disLabel l 2) b .bnil))
    ∧ (compose t a b).branchKeys.Nodup
    ∧ attribute_access (compose t a b) g (disLabel l 1) = .ok a
    ∧ attribute_access (compose t a b) g (disLabel l 2) = .ok b := by
  have hlist : asBranchNodes t a ++ asBranchNodes t b = [a, b] := by
    rw [asBranchNodes_atom t a ha, asBranchNodes_atom t b hb]; rfl
  have he : compose t a b
      = .comp (defaultGroup t) "" t
          (.bcons (g, disLabel l 1) a (.bcons (g, disLabel l 2) b .bnil)) := by
    rw [compose, hlist, disambiguate_pair a b g l hida hidb]
    rfl
  have hne : ((g, disLabel l 1) : String × String) ≠ (g, disLabel l 2) := by
    intro hk
    exact disLabel_one_ne_two l (congrArg Prod.snd hk)
  refine ⟨he, ?_, ?_, ?_⟩
  · rw [he, Node.branchKeys, BranchList.bkeys, BranchList.bkeys, BranchList.bkeys]
    simp [hne]
  · rw [he, attribute_access, BranchList.findB, if_pos rfl]
  · rw [he, attribute_access, BranchList.findB, if_neg hne, BranchList.findB, if_pos rfl]

/-- C6 witness: two leaves tagged `(group="Curve", label="")` composed via
ARRANGE are addressable as `Curve.I` and `Curve.II`, first-seen getting
`.I`. -/
theorem claim_C6_witness :
    attribute_access (compose .ARRANGE (.leaf "Curve" "" 10) (.leaf "Curve" "" 20)) "Curve" "I"
        = .ok (.leaf "Curve" "" 10)
    ∧ attribute_access (compose .ARRANGE (.leaf "Curve" "" 10) (.leaf "Curve" "" 20)) "Curve" "II"
        = .ok (.leaf "Curve" "" 20) := by
  have h := claim_C6_identity_disambiguation .ARRANGE (.leaf "Curve" "" 10) (.leaf "Curve" "" 20)
    "Curve" "" rfl rfl rfl rfl
  exact ⟨h.2.2.1, h.2.2.2⟩

/-! ### Claims about the Homogeneous Container operations -/

theorem lookupE_insertReplace_self (es : EntryList) (k : List Int) (x : Node) :
    (es.insertReplace k x).lookupE k = some x :=
  match es with
  | .enil => by simp [EntryList.insertReplace, EntryList.lookupE]
  | .econs k0 v0 r => by
      by_cases h0 : k0 = k
      · simp [EntryList.insertReplace, h0, EntryList.lookupE]
      · simp [EntryList.insertReplace, h0, EntryList.lookupE,
          lookupE_insertReplace_self r k x]

theorem lookupE_insertReplace_other (es : EntryList) (k k' : List Int) (x : Node)
    (hne : k' ≠ k) : (es.insertReplace k x).lookupE k' = es.lookupE k' :=
  match es with
  | .enil => by
      simp [EntryList.insertReplace, EntryList.lookupE, Ne.symm hne]
  | .econs k0 v0 r => by
      by_cases h0 : k0 = k
      · simp [EntryList.insertReplace, h0, EntryList.lookupE, Ne.symm hne]
      · by_cases hk : k0 = k'
        · simp [EntryList.insertReplace, h0, EntryList.lookupE, hk, hne]
        · simp [EntryList.insertReplace, h0, EntryList.lookupE, hk,
            lookupE_insertReplace_other r k k' x hne]

theorem lookupE_eq_none_of_not_mem (es : EntryList) (k : List Int)
    (h : k ∉ es.ekeys) : es.lookupE k = none :=
  match es with
  | .enil => rfl
  | .econs k0 v0 r => by
      rw [EntryList.ekeys, List.mem_cons] at h
      push_neg at h
      simp [EntryList.lookupE, Ne.symm h.1, lookupE_eq_none_of_not_mem r k h.2]

theorem mergeRight_lookupE (es' : EntryList) (hnd : es'.ekeys.Nodup)
    (es : EntryList) (k : List Int) :
    (mergeRight es es').lookupE k = (es'.lookupE k).or (es.lookupE k) :=
  match es' with
  | .enil => by simp [mergeRight, EntryList.lookupE]
  | .econs k0 v0 r => by
      rw [EntryList.ekeys, List.nodup_cons] at hnd
      rw [mergeRight, mergeRight_lookupE r hnd.2 (es.insertReplace k0 v0) k]
      by_cases hk : k0 = k
      · subst hk
        rw [lookupE_eq_none_of_not_mem r k0 hnd.1, lookupE_insertReplace_self]
        simp [EntryList.lookupE]
      · rw [lookupE_insertReplace_other es k0 k v0 (fun h => hk h.symm)]
        simp [EntryList.lookupE, hk]

theorem zipAgg_lookupE (es es' : EntryList) (k : List Int) (v w : Node)
    (hv : es.lookupE k = some v) (hw : es'.lookupE k = some w) :
    (zipAgg es' es).lookupE k = some (compose .AGGREGATE v w) :=
  match es with
  | .enil => by simp [EntryList.lookupE] at hv
  | .econs k0 v0 r => by
      rw [EntryList.lookupE] at hv
      by_cases hk : k0 = k
      · rw [if_pos hk] at hv
        subst hk
        have hv0 : v0 = v := Option.some.inj hv
        subst hv0
        rw [zipAgg, hw]
        simp [EntryList.lookupE]
      · rw [if_neg hk] at hv
        cases hses : es'.lookupE k0 <;>
          simp [zipAgg, hses, EntryList.lookupE, hk, zipAgg_lookupE r es' k v w hv hw]

/-- C3.  For a Homogeneous Container and a selection query: if filtering by
the constraints naming the key dimensions leaves exactly one entry and the
query pinned every key dimension with a scalar, `select` returns that entry's
node unwrapped; otherwise — whether because not every key dimension was
scalar-pinned or because the filtered result is not a single entry — it
returns a new Homogeneous Container of the filtered entries with key
dimensions reduced to the still-unconstrained ones. -/
theorem claim_C3_collapse_on_full_pin (cs : Query) (g l : String) (kd : List String)
    (es : EntryList) :
    (∀ k v, filterE kd (consumedAt kd cs) es = .econs k v .enil →
        fullyPinned kd (consumedAt kd cs) = true →
        selectH cs g l kd es = v)
    ∧ (fullyPinned kd (consumedAt kd cs) = false →
        selectH cs g l kd es
          = .hmap g l (reducedDims kd (consumedAt kd cs))
              (remapKeys kd (consumedAt kd cs) (filterE kd (consumedAt kd cs) es)))
    ∧ ((filterE kd (consumedAt kd cs) es).elength ≠ 1 →
        selectH cs g l kd es
          = .hmap g l (reducedDims kd (consumedAt kd cs))
              (remapKeys kd (consumedAt kd cs) (filterE kd (consumedAt kd cs) es))) := by
  refine ⟨?_, ?_, ?_⟩
  · intro k v h1 h2
    simp only [selectH]
    rw [h1, h2]
  · intro h2
    simp only [selectH]
    rw [h2]
    rcases hf : filterE kd (consumedAt kd cs) es with _ | ⟨k1, v1, r1⟩
    · rfl
    · cases r1 <;> rfl
  · intro h1
    simp only [selectH]
    rcases hf : filterE kd (consumedAt kd cs) es with _ | ⟨k1, v1, r1⟩
    · cases hp : fullyPinned kd (consumedAt kd cs) <;> rfl
    · cases r1 with
      | enil => rw [hf] at h1; exact absurd rfl h1
      | econs k2 v2 r2 => cases hp : fullyPinned kd (consumedAt kd cs) <;> rfl

/-- C3 witness: over key dimension `D` with entries `{1 ↦ X, 2 ↦ Y}`,
`select(D=1)` returns `X` itself, while `select(D = fun v => 0 < v)` (a
non-pinning predicate matching both entries) returns a container. -/
theorem claim_C3_witness :
    selectH [("D", .scalar 1)] "HoloMap" "" ["D"]
        (.econs [1] (.leaf "X" "" 100) (.econs [2] (.leaf "Y" "" 200) .enil))
      = .leaf "X" "" 100
    ∧ selectH [("D", .predC (fun v => decide (0 < v)))] "HoloMap" "" ["D"]
        (.econs [1] (.leaf "X" "" 100) (.econs [2] (.leaf "Y" "" 200) .enil))
      = .hmap "HoloMap" "" ["D"]
          (.econs [1] (.leaf "X" "" 100) (.econs [2] (.leaf "Y" "" 200) .enil)) :=
  ⟨(claim_C3_collapse_on_full_pin [("D", .scalar 1)] "HoloMap" "" ["D"]
      (.econs [1] (.leaf "X" "" 100) (.econs [2] (.leaf "Y" "" 200) .enil))).1
      [1] (.leaf "X" "" 100) rfl rfl,
   ((claim_C3_collapse_on_full_pin [("D", .predC (fun v => decide (0 < v)))] "HoloMap" "" ["D"]
      (.econs [1] (.leaf "X" "" 100) (.econs [2] (.leaf "Y" "" 200) .enil))).2.1 rfl).trans rfl⟩

/-- C7.  For every Homogeneous Container, every key tuple of the declared
arity and every node compatible with the container's structural signature,
`assign` succeeds (returning the insert-or-replace of the entries) and
looking the key up afterwards returns exactly the assigned node. -/
theorem claim_C7_assign_lookup_round_trip (kd : List String) (es : EntryList)
    (k : List Int) (x : Node) (harity : k.length = kd.length)
    (hsig : sigCompatible es x = true) :
    assignE kd es k x = .ok (es.insertReplace k x)
    ∧ lookupC kd (es.insertReplace k x) k = .ok x := by
  constructor
  · rw [assignE, if_neg (fun h => h harity), if_pos hsig]
  · rw [lookupC, if_neg (fun h => h harity), lookupE_insertReplace_self]

/-- C7 witness: assigning a compatible leaf at the fresh key `[2]` of a
one-dimensional container and looking `[2]` up returns that leaf. -/
theorem claim_C7_witness :
    assignE ["D"] (.econs [1] (demoLeaf 1) .enil) [2] (demoLeaf 9)
        = .ok (.econs [1] (demoLeaf 1) (.econs [2] (demoLeaf 9) .enil))
    ∧ lookupC ["D"] ((EntryList.econs [1] (demoLeaf 1) .enil).insertReplace [2] (demoLeaf 9)) [2]
        = .ok (demoLeaf 9) :=
  ⟨((claim_C7_assign_lookup_round_trip ["D"] (.econs [1] (demoLeaf 1) .enil)
      [2] (demoLeaf 9) rfl rfl).1).trans rfl,
   (claim_C7_assign_lookup_round_trip ["D"] (.econs [1] (demoLeaf 1) .enil)
      [2] (demoLeaf 9) rfl rfl).2⟩

/-- C9.  A failing `assign` aborts only the call that raised it and leaves
the container unmutated: whenever the in-place `assign` reports an error the
entries afterwards are exactly the prior entries, and in every case (success
or failure) the entry at any key other than the assigned one is
untouched — there is no partial insert. -/
theorem claim_C9_failed_assign_leaves_intact (kd : List String) (es : EntryList)
    (k : List Int) (x : Node) :
    (∀ e : Err, (assignInPlace kd es k x).1 = .error e → (assignInPlace kd es k x).2 = es)
    ∧ (∀ k' : List Int, k' ≠ k →
        ((assignInPlace kd es k x).2).lookupE k' = es.lookupE k') := by
  constructor
  · intro e he
    rw [assignInPlace] at he ⊢
    cases ha : assignE kd es k x with
    | ok es' => rw [ha] at he; simp at he
    | error e0 => rfl
  · intro k' hk
    rw [assignInPlace]
    cases ha : assignE kd es k x with
    | error e0 => rfl
    | ok es' =>
        have hes' : es' = es.insertReplace k x := by
          rw [assignE] at ha
          split_ifs at ha
          all_goals simp_all
        subst hes'
        exact lookupE_insertReplace_other es k k' x hk

/-- C9 witness: an arity-mismatched `assign` fails and leaves the container's
entries exactly as they were, the prior entry still retrievable. -/
theorem claim_C9_witness :
    (assignInPlace ["D"] (.econs [1] (demoLeaf 1) .enil) [2, 3] (demoLeaf 9)).2
        = .econs [1] (demoLeaf 1) .enil
    ∧ ((assignInPlace ["D"] (.econs [1] (demoLeaf 1) .enil) [2, 3] (demoLeaf 9)).2).lookupE [1]
        = some (demoLeaf 1) :=
  ⟨(claim_C9_failed_assign_leaves_intact ["D"] (.econs [1] (demoLeaf 1) .enil)
      [2, 3] (demoLeaf 9)).1 .keyArityError rfl,
   ((claim_C9_failed_assign_leaves_intact ["D"] (.econs [1] (demoLeaf 1) .enil)
      [2, 3] (demoLeaf 9)).2 [1] (by decide)).trans rfl⟩

/-- C8.  Composing two Homogeneous Containers of identical key dimensions via
`+` yields a container whose entries are the entry-wise union of the
operands' entries, the right operand's node winning at every key present in
both (overwrite-by-rightmost): lookup in the merge is the right operand's
lookup, falling back to the left operand's. -/
theorem claim_C8_plus_union_rightmost (g l g' l' : String) (kd : List String)
    (es es' : EntryList) (hnd : es'.ekeys.Nodup) :
    applyOp .ARRANGE (.hmap g l kd es) (.hmap g' l' kd es')
        = .hmap g l kd (mergeRight es es')
    ∧ ∀ k : List Int, (mergeRight es es').lookupE k = (es'.lookupE k).or (es.lookupE k) :=
  ⟨by simp [applyOp], fun k => mergeRight_lookupE es' hnd es k⟩

/-- C8 witness: containers sharing key `[2]` with values `2` then `7`
composed via `+` hold the right operand's node at `[2]`. -/
theorem claim_C8_witness :
    (mergeRight (.econs [1] (demoLeaf 1) (.econs [2] (demoLeaf 2) .enil))
        (.econs [2] (demoLeaf 7) (.econs [3] (demoLeaf 8) .enil))).lookupE [2]
      = some (demoLeaf 7) :=
  ((claim_C8_plus_union_rightmost "H" "" "H" "" ["D"]
      (.econs [1] (demoLeaf 1) (.econs [2] (demoLeaf 2) .enil))
      (.econs [2] (demoLeaf 7) (.econs [3] (demoLeaf 8) .enil)) (by decide)).2 [2]).trans rfl

/-- C10.  Applying the AGGREGATE operator `*` to two Homogeneous Containers
with identical key dimensions yields a Homogeneous Container over the same
key dimensions — not a two-branch heterogeneous composite wrapping the
containers — whose entry at each key held by both operands is the AGGREGATE
composite of the two operands' entries at that key. -/
theorem claim_C10_containerwise_aggregate (g l g' l' : String) (kd : List String)
    (es es' : EntryList) (k : List Int) (v w : Node)
    (hv : es.lookupE k = some v) (hw : es'.lookupE k = some w) :
    applyOp .AGGREGATE (.hmap g l kd es) (.hmap g' l' kd es')
        = .hmap g l kd (zipAgg es' es)
    ∧ (zipAgg es' es).lookupE k = some (compose .AGGREGATE v w) :=
  ⟨by simp [applyOp], zipAgg_lookupE es es' k v w hv hw⟩

/-- C10 witness: two stacks over the same key dimension combined via `*` hold
at key `[1]` the AGGREGATE composite of the two entries at `[1]`. -/
theorem claim_C10_witness :
    (zipAgg (.econs [1] (demoLeaf 7) (.econs [2] (demoLeaf 8) .enil))
        (.econs [1] (demoLeaf 1) (.econs [2] (demoLeaf 2) .enil))).lookupE [1]
      = some (compose .AGGREGATE (demoLeaf 1) (demoLeaf 7)) :=
  (claim_C10_containerwise_aggregate "H" "" "H" "" ["D"]
      (.econs [1] (demoLeaf 1) (.econs [2] (demoLeaf 2) .enil))
      (.econs [1] (demoLeaf 7) (.econs [2] (demoLeaf 8) .enil))
      [1] (demoLeaf 1) (demoLeaf 7) rfl rfl).2

/-! ### Claims about the Deep Selection Engine -/

theorem deepB_eq_bnil_iff (cs : Query) (bs : BranchList) :
    deepB cs bs = .bnil ↔ ∀ n ∈ bs.nodes, deepSelect cs n = none :=
  match bs with
  | .bnil => by simp [deepB, BranchList.nodes]
  | .bcons bk v r => by
      rw [deepB]
      cases hv : deepSelect cs v with
      | some v' =>
          constructor
          · intro h; cases h
          · intro h
            exact absurd ((h v) (by simp [BranchList.nodes])) (by simp [hv])
      | none =>
          constructor
          · intro h n hn
            rw [BranchList.nodes, List.mem_cons] at hn
            rcases hn with rfl | hn
            · exact hv
            · exact (deepB_eq_bnil_iff cs r).1 h n hn
          · intro h
            exact (deepB_eq_bnil_iff cs r).2 (fun n hn => h n (by simp [BranchList.nodes, hn]))

/-- C5.  `deep_select` on a Heterogeneous Composite raises
`SelectionEmptyError` exactly when the constraints eliminate every branch of
the queried subtree; when they empty some but not all branches, the emptied
branches are silently dropped and the result is a Composite of the same tag
holding the remaining (possibly collapsed) branches. -/
theorem claim_C5_empty_only_when_all_empty (cs : Query) (g l : String) (t : Tag) :
    (∀ bs : BranchList,
        deep_select cs (.comp g l t bs) = .error .selectionEmptyError ↔
          ∀ n ∈ bs.nodes, deepSelect cs n = none)
    ∧ (∀ (k1 k2 k3 : String × String) (b1 b2 b3 r2 r3 : Node),
        deepSelect cs b1 = none → deepSelect cs b2 = some r2 →
        deepSelect cs b3 = some r3 →
        deepSelect cs (.comp g l t (.bcons k1 b1 (.bcons k2 b2 (.bcons k3 b3 .bnil))))
          = some (.comp g l t (.bcons k2 r2 (.bcons k3 r3 .bnil)))) := by
  constructor
  · intro bs
    rw [← deepB_eq_bnil_iff cs bs, deep_select]
    simp only [deepSelect]
    cases hb : deepB cs bs with
    | bnil => simp
    | bcons bk v r => simp
  · intro k1 k2 k3 b1 b2 b3 r2 r3 h1 h2 h3
    simp [deepSelect, deepB, h1, h2, h3]

/-- C5 witness: over a three-branch AGGREGATE composite of containers, the
constraint `D=5` empties exactly the first branch and yields a composite of
the two remaining (collapsed) branches, while `D=9` empties all three and
raises `SelectionEmptyError`. -/
theorem claim_C5_witness :
    deepSelect [("D", .scalar 5)] demoOverlay
        = some (.comp "Overlay" "" .AGGREGATE
            (.bcons ("HoloMap", "II") (demoLeaf 3)
              (.bcons ("HoloMap", "III") (demoLeaf 4) .bnil)))
    ∧ deep_select [("D", .scalar 9)] demoOverlay = .error .selectionEmptyError := by
  constructor
  · exact (claim_C5_empty_only_when_all_empty [("D", .scalar 5)] "Overlay" "" .AGGREGATE).2
      ("HoloMap", "I") ("HoloMap", "II") ("HoloMap", "III")
      demoBranchA demoBranchB demoBranchC (demoLeaf 3) (demoLeaf 4) rfl rfl rfl
  · apply ((claim_C5_empty_only_when_all_empty [("D", .scalar 9)] "Overlay" "" .AGGREGATE).1 _).2
    intro n hn
    simp [demoOverlay, BranchList.nodes] at hn
    rcases hn with rfl | rfl | rfl <;> rfl

/-- C4.  Deep selection at a Homogeneous Container consumes exactly the
constraints naming that container's key dimensions and passes the rest down
unconsumed — its result depends only on that partition of the constraint
set — so selecting in two steps equals selecting in one combined call:
`select(Amplitude=5, Power=1)` followed by `select(Frequency=1)` returns the
same node as `select(Amplitude=5, Power=1, Frequency=1)` on the tutorial's
grid of containers, namely the fully specified leaf. -/
theorem claim_C4_partition_and_chaining :
    (∀ (cs cs' : Query) (g l : String) (kd : List String) (es : EntryList),
        consumedAt kd cs = consumedAt kd cs' →
        passedDown kd cs = passedDown kd cs' →
        deepSelect cs (.hmap g l kd es) = deepSelect cs' (.hmap g l kd es))
    ∧ ((deepSelect [("Amplitude", .scalar 5), ("Power", .scalar 1)] demoGrid).bind
          (deepSelect [("Frequency", .scalar 1)])
        = deepSelect [("Amplitude", .scalar 5), ("Power", .scalar 1),
            ("Frequency", .scalar 1)] demoGrid)
    ∧ deepSelect [("Amplitude", .scalar 5), ("Power", .scalar 1),
          ("Frequency", .scalar 1)] demoGrid = some (demoLeaf 11) := by
  refine ⟨?_, rfl, rfl⟩
  intro cs cs' g l kd es h1 h2
  simp only [deepSelect]
  rw [h1, h2]

/-- C4 witness: two differently ordered constraint sets with the same
consumed/passed-down partition at the grid's key dimensions select
identically. -/
theorem claim_C4_witness :
    deepSelect [("Amplitude", .scalar 5), ("Frequency", .scalar 1)]
        (.hmap "GridSpace" "Sines" ["Amplitude", "Power"]
          (.econs [5, 1] (demoHoloMap 1)
            (.econs [5, 2] (demoHoloMap 2)
              (.econs [10, 1] (demoHoloMap 3) .enil))))
      = deepSelect [("Frequency", .scalar 1), ("Amplitude", .scalar 5)]
        (.hmap "GridSpace" "Sines" ["Amplitude", "Power"]
          (.econs [5, 1] (demoHoloMap 1)
            (.econs [5, 2] (demoHoloMap 2)
              (.econs [10, 1] (demoHoloMap 3) .enil)))) :=
  claim_C4_partition_and_chaining.1
    [("Amplitude", .scalar 5), ("Frequency", .scalar 1)]
    [("Frequency", .scalar 1), ("Amplitude", .scalar 5)]
    "GridSpace" "Sines" ["Amplitude", "Power"]
    (.econs [5, 1] (demoHoloMap 1)
      (.econs [5, 2] (demoHoloMap 2)
        (.econs [10, 1] (demoHoloMap 3) .enil))) rfl rfl

end HoloCore
